import Mathlib

/-!
Shallow embedding of the GEX (gamma exposure) calculation engine
(`backend/engines/gex_engine.py`) and proofs about the claims of its
specification.

Modelling conventions:
* Python raw field values coming from the JSON options chain are modelled by
  `JVal`: an integer, a float (Python floats are rational, so we carry an
  exact `ℚ`), a string (represented by the results of attempting to parse it
  as a float / as an int literal, which is all the engine ever does with it),
  or a value of any other type (`other`, e.g. a list).  A missing or `null`
  field is `Option.none` around `JVal` (both make `dict.get` return `None`).
* Real-valued computations (Black-Scholes prices, gamma, GEX magnitudes) are
  idealised over `ℝ`; values that travel straight from the input to the
  output (strikes, open interest, spot) stay exact (`ℚ`, `ℤ`).
* Python exceptions are modelled with `Except PyErr`: `float(...)`/`int(...)`
  on a non-castable value, float division by zero, and `math.log` on a
  non-positive argument are the reachable raising operations.
* `date.today()` is the parameter `today : ℤ` (an epoch day ordinal) and an
  `expirationDate` string is modelled by its parse result `Option ℤ`
  (`none` = missing or unparseable, which the engine treats identically:
  time-to-expiry `0`).  The generation timestamp is the parameter `now`.
* The configured risk-free rate `settings.risk_free_rate` is the parameter
  `r`.
-/

namespace GexEngine

open MeasureTheory Set

/-- Python exception kinds reachable inside the engine. -/
inductive PyErr where
  | valueError
  | typeError
  | zeroDivisionError
  deriving DecidableEq, Repr

/-- Runtime value of a contract-record field, abstracted by exactly the
observations the engine makes of it.  A string is represented by its parse
results: `strAsFloat` is what `float(s)` would yield (`none` = raises), and
`strAsInt` what `int(s)` would yield (`none` = raises). -/
inductive JVal where
  | intv (n : ℤ)
  | floatv (q : ℚ)
  | strv (strAsFloat : Option ℚ) (strAsInt : Option ℤ)
  | other
  deriving DecidableEq

/-- Truncation toward zero, the semantics of Python `int()` on a float. -/
def truncQ (q : ℚ) : ℤ := if 0 ≤ q then ⌊q⌋ else -⌊-q⌋

/-- ASCII lowercase of one character (Python `str.lower()` restricted to
ASCII, which covers every string the engine compares against). -/
def lowerChar (c : Char) : Char :=
  if 'A' ≤ c ∧ c ≤ 'Z' then Char.ofNat (c.toNat + 32) else c

/-- Python `str.lower()` (ASCII). -/
def pyLower (s : String) : String := ⟨s.data.map lowerChar⟩

/-- Semantics of Python `float(v)`. -/
def pyFloat : JVal → Except PyErr ℚ
  | .intv n => .ok (n : ℚ)
  | .floatv q => .ok q
  | .strv (some q) _ => .ok q
  | .strv none _ => .error .valueError
  | .other => .error .typeError

/-- Semantics of Python `int(v)`. -/
def pyInt : JVal → Except PyErr ℤ
  | .intv n => .ok n
  | .floatv q => .ok (truncQ q)
  | .strv _ (some n) => .ok n
  | .strv _ none => .error .valueError
  | .other => .error .typeError

/-- Semantics of `v is not None and isinstance(v, (int, float))`, returning
the numeric value when the test passes. -/
def numVal? : Option JVal → Option ℚ
  | some (.intv n) => some (n : ℚ)
  | some (.floatv q) => some q
  | _ => none

/-- One raw option-contract record (an FMP-format dict).  Fields the engine
never reads are omitted.  `expirationDate` is the parsed ISO date as an epoch
day ordinal (`none` = missing or unparseable). -/
structure Contract where
  strike : Option JVal
  openInterest : Option JVal
  expirationDate : Option ℤ
  type_ : Option String
  impliedVolatility : Option JVal
  bid : Option JVal
  ask : Option JVal
  lastPrice : Option JVal
  deriving DecidableEq

/-- Output row: net GEX components for a single strike (`GexStrike`). -/
structure GexStrike where
  strike : ℚ
  call_gex : ℝ
  put_gex : ℝ
  net_gex : ℝ

/-- Output: notable strike levels (`GexKeyLevels`). -/
structure GexKeyLevels where
  max_positive_gex : Option ℚ
  max_negative_gex : Option ℚ
  gamma_flip : Option ℚ

/-- Output: full GEX calculation result (`GexResult`). -/
structure GexResult where
  current_price : ℚ
  gamma_flip : Option ℚ
  total_gex : ℝ
  strikes : List GexStrike
  key_levels : GexKeyLevels
  last_updated : String

/-- Bisection search lower bound `IV_BISECT_LOW`. -/
def IV_BISECT_LOW : ℝ := 0.01

/-- Bisection search upper bound `IV_BISECT_HIGH`. -/
def IV_BISECT_HIGH : ℝ := 5.0

/-- Bisection tolerance on the price error, `IV_BISECT_TOLERANCE`. -/
def IV_BISECT_TOLERANCE : ℝ := 1e-4

/-- Hard cap on bisection iterations, `IV_BISECT_MAX_ITER`. -/
def IV_BISECT_MAX_ITER : ℕ := 100

/-- Guard threshold `MIN_SIGMA_SQRT_T` for `sigma * sqrt T`. -/
def MIN_SIGMA_SQRT_T : ℝ := 1e-8

/-- Contract multiplier (100 shares per contract). -/
def CONTRACT_MULTIPLIER : ℕ := 100

/-- Density of the standard normal distribution (`scipy.stats.norm.pdf`). -/
noncomputable def normPdf (x : ℝ) : ℝ :=
  Real.exp (-(x ^ 2) / 2) / Real.sqrt (2 * Real.pi)

/-- Cumulative distribution function of the standard normal distribution
(`scipy.stats.norm.cdf`). -/
noncomputable def normCdf (x : ℝ) : ℝ := ∫ t in Iic x, normPdf t

/-- The value of d1 on the non-raising domain. -/
noncomputable def bsD1val (S K r sigma T : ℝ) : ℝ :=
  (Real.log (S / K) + (r + 0.5 * sigma ^ 2) * T) / (sigma * Real.sqrt T)

/-- The d1 component of Black-Scholes (`_bs_d1`).  Python raises
`ZeroDivisionError` on `S / K` with `K == 0`, `ValueError` from `math.log`
on a non-positive argument, `ValueError` from `math.sqrt` on `T < 0`, and
`ZeroDivisionError` when the denominator `sigma * sqrt T` is zero. -/
noncomputable def bs_d1 (S K r sigma T : ℝ) : Except PyErr ℝ :=
  if K = 0 then .error .zeroDivisionError
  else if S / K ≤ 0 then .error .valueError
  else if T < 0 then .error .valueError
  else if sigma * Real.sqrt T = 0 then .error .zeroDivisionError
  else .ok ((Real.log (S / K) + (r + 0.5 * sigma ^ 2) * T) / (sigma * Real.sqrt T))

/-- Black-Scholes theoretical price (`_bs_price`). -/
noncomputable def bs_price (S K r sigma T : ℝ) (optionType : String) :
    Except PyErr ℝ :=
  match bs_d1 S K r sigma T with
  | .error e => .error e
  | .ok d1 =>
      let d2 := d1 - sigma * Real.sqrt T
      let discount := Real.exp (-r * T)
      if pyLower optionType = "call" then
        .ok (S * normCdf d1 - K * discount * normCdf d2)
      else
        .ok (K * discount * normCdf (-d2) - S * normCdf (-d1))

/-- Black-Scholes gamma (`_bs_gamma`).  Returns `0` below the
`MIN_SIGMA_SQRT_T` guard; the final division raises `ZeroDivisionError`
when `S * (sigma * sqrt T) = 0`. -/
noncomputable def bs_gamma (S K r sigma T : ℝ) : Except PyErr ℝ :=
  if sigma * Real.sqrt T < MIN_SIGMA_SQRT_T then .ok 0
  else
    match bs_d1 S K r sigma T with
    | .error e => .error e
    | .ok d1 =>
        if S * (sigma * Real.sqrt T) = 0 then .error .zeroDivisionError
        else .ok (normPdf d1 / (S * (sigma * Real.sqrt T)))

/-- Discounted intrinsic value used by the bisection preconditions. -/
noncomputable def intrinsicValue (S K r T : ℝ) (optionType : String) : ℝ :=
  if pyLower optionType = "call" then max (S - K * Real.exp (-r * T)) 0
  else max (K * Real.exp (-r * T) - S) 0

/-- The bisection loop of `_implied_volatility_bisection`, with the
iteration count of the Python `for` loop as explicit fuel. -/
noncomputable def ivBisectGo (market S K r T : ℝ) (optionType : String) :
    ℕ → ℝ → ℝ → Except PyErr (Option ℝ)
  | 0, _, _ => .ok none
  | n + 1, low, high =>
      let mid := (low + high) / 2
      match bs_price S K r mid T optionType with
      | .error e => .error e
      | .ok priceMid =>
          if |priceMid - market| < IV_BISECT_TOLERANCE then .ok (some mid)
          else if priceMid - market < 0 then
            ivBisectGo market S K r T optionType n mid high
          else
            ivBisectGo market S K r T optionType n low mid

/-- Implied-volatility recovery via bisection
(`_implied_volatility_bisection`). -/
noncomputable def ivBisect (market S K r T : ℝ) (optionType : String) :
    Except PyErr (Option ℝ) :=
  if market ≤ 0 then .ok none
  else if market < intrinsicValue S K r T optionType - IV_BISECT_TOLERANCE then
    .ok none
  else
    match bs_price S K r IV_BISECT_LOW T optionType with
    | .error e => .error e
    | .ok priceLow =>
        match bs_price S K r IV_BISECT_HIGH T optionType with
        | .error e => .error e
        | .ok priceHigh =>
            if market < priceLow - IV_BISECT_TOLERANCE then .ok none
            else if priceHigh + IV_BISECT_TOLERANCE < market then .ok none
            else
              ivBisectGo market S K r T optionType IV_BISECT_MAX_ITER
                IV_BISECT_LOW IV_BISECT_HIGH

/-- Time remaining until expiration in years (`_time_to_expiry_years`): the
whole-day difference over 365.  An unparseable (or missing) date yields 0. -/
def time_to_expiry_years (today : ℤ) (expirationDate : Option ℤ) : ℚ :=
  match expirationDate with
  | none => 0
  | some expiry => ((expiry - today : ℤ) : ℚ) / 365

/-- Best available market price for a contract
(`_extract_market_price`): mid of positive bid/ask, else positive last. -/
def extract_market_price (c : Contract) : Option ℚ :=
  match numVal? c.bid, numVal? c.ask with
  | some bid, some ask =>
      if 0 < bid ∧ 0 < ask then some ((bid + ask) / 2)
      else
        match numVal? c.lastPrice with
        | some last => if 0 < last then some last else none
        | none => none
  | _, _ =>
      match numVal? c.lastPrice with
      | some last => if 0 < last then some last else none
      | none => none

/-- Volatility resolution for one contract (the `# Resolve implied
volatility` block of `calculate_gex`): use the raw `impliedVolatility` field
when it is a number `> 0`, otherwise run bisection on the extracted market
price; with no usable price the result is `none` (skip). -/
noncomputable def resolveSigma (S : ℚ) (r : ℝ) (K : ℚ) (T : ℚ)
    (optionType : String) (c : Contract) : Except PyErr (Option ℝ) :=
  match numVal? c.impliedVolatility with
  | some iv =>
      if 0 < iv then .ok (some ((iv : ℝ)))
      else
        match extract_market_price c with
        | some marketPrice =>
            ivBisect ((marketPrice : ℝ)) ((S : ℝ)) ((K : ℝ)) r ((T : ℝ)) optionType
        | none => .ok none
  | none =>
      match extract_market_price c with
      | some marketPrice =>
          ivBisect ((marketPrice : ℝ)) ((S : ℝ)) ((K : ℝ)) r ((T : ℝ)) optionType
      | none => .ok none

/-- One iteration of the main loop of `calculate_gex`: validate, filter,
resolve volatility, and compute the contract's signed GEX contribution.
Returns `none` when the contract is skipped, otherwise the strike, whether
it is a call, and the GEX magnitude (`gamma * oi * 100 * S^2`). -/
noncomputable def processContract (today : ℤ) (S : ℚ) (r : ℝ) (c : Contract) :
    Except PyErr (Option (ℚ × Bool × ℝ)) :=
  let optionType := pyLower (c.type_.getD "")
  match c.strike, c.openInterest with
  | some strikeRaw, some oiRaw =>
      if optionType ≠ "call" ∧ optionType ≠ "put" then .ok none
      else
        match pyFloat strikeRaw with
        | .error e => .error e
        | .ok K =>
            match pyInt oiRaw with
            | .error e => .error e
            | .ok oi =>
                if oi = 0 then .ok none
                else
                  let T := time_to_expiry_years today c.expirationDate
                  if T ≤ 0 then .ok none
                  else
                    match resolveSigma S r K T optionType c with
                    | .error e => .error e
                    | .ok none => .ok none
                    | .ok (some sigma) =>
                        if sigma ≤ 0 then .ok none
                        else
                          let sigmaSqrtT := sigma * Real.sqrt ((T : ℝ))
                          if sigmaSqrtT < MIN_SIGMA_SQRT_T then .ok none
                          else
                            match bs_gamma ((S : ℝ)) ((K : ℝ)) r sigma ((T : ℝ)) with
                            | .error e => .error e
                            | .ok gamma =>
                                .ok (some (K, optionType = "call",
                                  gamma * (oi : ℝ) * (CONTRACT_MULTIPLIER : ℝ) *
                                    ((S : ℝ)) ^ 2))
  | _, _ => .ok none

/-- Add one processed contract into the per-strike accumulator
(`strike_gex[K]["call"] += ...` / `strike_gex[K]["put"] += -...`), an
insertion-ordered association list mirroring a Python dict. -/
def updateStrikeGex (d : List (ℚ × ℝ × ℝ)) (K : ℚ) (isCall : Bool) (g : ℝ) :
    List (ℚ × ℝ × ℝ) :=
  match d with
  | [] => [(K, if isCall then g else 0, if isCall then 0 else -g)]
  | (k, cg, pg) :: rest =>
      if k = K then
        (k, (if isCall then cg + g else cg), (if isCall then pg else pg + -g)) :: rest
      else (k, cg, pg) :: updateStrikeGex rest K isCall g

/-- The main `for contract in options_chain` loop of `calculate_gex`. -/
noncomputable def accumulate (today : ℤ) (S : ℚ) (r : ℝ) :
    List Contract → List (ℚ × ℝ × ℝ) → Except PyErr (List (ℚ × ℝ × ℝ))
  | [], d => .ok d
  | c :: rest, d =>
      match processContract today S r c with
      | .error e => .error e
      | .ok none => accumulate today S r rest d
      | .ok (some (K, isCall, g)) =>
          accumulate today S r rest (updateStrikeGex d K isCall g)

/-- Read the accumulated (call, put) pair for a strike
(`strike_gex[K]["call"]`, `strike_gex[K]["put"]`). -/
def lookupGex (d : List (ℚ × ℝ × ℝ)) (K : ℚ) : ℝ × ℝ :=
  match d with
  | [] => (0, 0)
  | (k, cg, pg) :: rest => if k = K then (cg, pg) else lookupGex rest K

/-- Gamma-flip scan loop (`_find_gamma_flip`): `prevNeg` tracks whether a
strictly negative net GEX has been seen. -/
noncomputable def findGammaFlipGo : Bool → List GexStrike → Option ℚ
  | _, [] => none
  | prevNeg, row :: rest =>
      if row.net_gex < 0 then findGammaFlipGo true rest
      else if 0 < row.net_gex ∧ prevNeg = true then some row.strike
      else findGammaFlipGo prevNeg rest

/-- Gamma flip detection (`_find_gamma_flip`). -/
noncomputable def find_gamma_flip (strikeRows : List GexStrike) : Option ℚ :=
  findGammaFlipGo false strikeRows

/-- Python `max(rows, key=net_gex)`: first row attaining the maximum. -/
noncomputable def pickMaxByNet (rows : List GexStrike) : Option GexStrike :=
  rows.foldl
    (fun acc row =>
      match acc with
      | none => some row
      | some best => if best.net_gex < row.net_gex then some row else some best)
    none

/-- Python `min(rows, key=net_gex)`: first row attaining the minimum. -/
noncomputable def pickMinByNet (rows : List GexStrike) : Option GexStrike :=
  rows.foldl
    (fun acc row =>
      match acc with
      | none => some row
      | some best => if row.net_gex < best.net_gex then some row else some best)
    none

/-- Key-level computation (`_compute_key_levels`). -/
noncomputable def compute_key_levels (strikeRows : List GexStrike)
    (gammaFlip : Option ℚ) : GexKeyLevels :=
  match strikeRows with
  | [] => ⟨none, none, gammaFlip⟩
  | _ :: _ =>
      let positiveRows := strikeRows.filter (fun row => decide (0 < row.net_gex))
      let negativeRows := strikeRows.filter (fun row => decide (row.net_gex < 0))
      ⟨(pickMaxByNet positiveRows).map GexStrike.strike,
       (pickMinByNet negativeRows).map GexStrike.strike,
       gammaFlip⟩

/-- Materialise the sorted per-strike rows of `calculate_gex`. -/
noncomputable def buildStrikeRows (d : List (ℚ × ℝ × ℝ)) : List GexStrike :=
  ((d.map Prod.fst).insertionSort (· ≤ ·)).map
    (fun K =>
      let cp := lookupGex d K
      ⟨K, cp.1, cp.2, cp.1 + cp.2⟩)

/-- Main entry point `calculate_gex`.  `today` is `date.today()`, `r` is
`settings.risk_free_rate` and `now` is the generation timestamp computed at
the top of the function. -/
noncomputable def calculate_gex (optionsChain : List Contract)
    (currentPrice : ℚ) (today : ℤ) (r : ℝ) (now : String) :
    Except PyErr GexResult :=
  if optionsChain = [] ∨ currentPrice ≤ 0 then
    .ok ⟨currentPrice, none, 0, [], ⟨none, none, none⟩, now⟩
  else
    match accumulate today currentPrice r optionsChain [] with
    | .error e => .error e
    | .ok d =>
        let strikeRows := buildStrikeRows d
        let totalGex := (strikeRows.map GexStrike.net_gex).sum
        let gammaFlip := find_gamma_flip strikeRows
        let keyLevels := compute_key_levels strikeRows gammaFlip
        .ok ⟨currentPrice, gammaFlip, totalGex, strikeRows, keyLevels, now⟩

/-- Number of loop iterations the bisection actually executes for a given
fuel: an iteration is counted when the loop body runs (price evaluation),
whether it returns, raises, or recurses. -/
noncomputable def ivBisectGoSteps (market S K r T : ℝ) (optionType : String) :
    ℕ → ℝ → ℝ → ℕ
  | 0, _, _ => 0
  | n + 1, low, high =>
      let mid := (low + high) / 2
      match bs_price S K r mid T optionType with
      | .error _ => 1
      | .ok priceMid =>
          if |priceMid - market| < IV_BISECT_TOLERANCE then 1
          else if priceMid - market < 0 then
            1 + ivBisectGoSteps market S K r T optionType n mid high
          else
            1 + ivBisectGoSteps market S K r T optionType n low mid

/-- Spec characterisation ("first ascending row with positive net GEX that
follows a negative-net-GEX row"): row `j` has strictly positive net GEX and
some earlier row has strictly negative net GEX. -/
def IsFlipRowAt (rows : List GexStrike) (j : ℕ) : Prop :=
  ∃ row, rows[j]? = some row ∧ 0 < row.net_gex ∧
    ∃ i rowi, i < j ∧ rows[i]? = some rowi ∧ rowi.net_gex < 0

/-- Loop invariant predicate for the gamma-flip scan: row `j` has positive
net GEX and either the flag is already set or an earlier row is negative. -/
def QFlip (b : Bool) (rows : List GexStrike) (j : ℕ) : Prop :=
  ∃ row, rows[j]? = some row ∧ 0 < row.net_gex ∧
    (b = true ∨ ∃ i rowi, i < j ∧ rows[i]? = some rowi ∧ rowi.net_gex < 0)

/-- A contract whose `strike` and `openInterest` fields, when present, can
be cast by `float(...)` / `int(...)` without raising, with a strictly
positive strike.  These are exactly the per-record conditions under which
the engine's skip-and-continue discipline is exception-free. -/
def SafeContract (c : Contract) : Prop :=
  (∀ v, c.strike = some v → ∃ q, pyFloat v = .ok q ∧ 0 < q) ∧
  (∀ v, c.openInterest = some v → ∃ n, pyInt v = .ok n)

/-- The result fields that must agree between two invocations that differ
only in their generation timestamp. -/
def resultCore (g : GexResult) :
    ℚ × Option ℚ × ℝ × List GexStrike × GexKeyLevels :=
  (g.current_price, g.gamma_flip, g.total_gex, g.strikes, g.key_levels)

/-- A record whose strike is a string that does not parse as a number
("abc"): `float(strike)` raises `ValueError`. -/
def badStrikeStrContract : Contract :=
  { strike := some (.strv none none)
    openInterest := some (.intv 10)
    expirationDate := some 365
    type_ := some "call"
    impliedVolatility := some (.floatv (1 / 2))
    bid := none
    ask := none
    lastPrice := none }

/-- A record with a negative strike: it passes every validation check, and
`math.log(S / K)` then raises `ValueError` inside the gamma computation. -/
def negStrikeContract : Contract :=
  { strike := some (.intv (-100))
    openInterest := some (.intv 10)
    expirationDate := some 365
    type_ := some "call"
    impliedVolatility := some (.floatv (1 / 2))
    bid := none
    ask := none
    lastPrice := none }

/-- A record with strictly negative open interest: `oi == 0` is false, so it
is not filtered and contributes a strike row. -/
def negOiContract : Contract :=
  { strike := some (.intv 100)
    openInterest := some (.intv (-100))
    expirationDate := some 365
    type_ := some "call"
    impliedVolatility := some (.floatv (1 / 2))
    bid := none
    ask := none
    lastPrice := none }

/-- A well-formed call record carrying its own implied volatility. -/
def plainIvContract : Contract :=
  { strike := some (.intv 100)
    openInterest := some (.intv 10)
    expirationDate := some 365
    type_ := some "call"
    impliedVolatility := some (.floatv (1 / 2))
    bid := none
    ask := none
    lastPrice := none }

/-!  Theorems.  -/

/-- C6: an empty contract list or a non-positive spot price yields (never
raises) a `GexResult` with empty strikes, `total_gex = 0`, absent gamma flip
and all three key levels absent. -/
theorem degenerate_input_empty_result (chain : List Contract) (p : ℚ)
    (today : ℤ) (r : ℝ) (now : String) (h : chain = [] ∨ p ≤ 0) :
    calculate_gex chain p today r now =
      .ok ⟨p, none, 0, [], ⟨none, none, none⟩, now⟩ := by
  unfold calculate_gex
  rw [if_pos h]

/-- Witness for C6 at the concrete input `chain = []`, `p = 100`. -/
theorem degenerate_input_empty_result_witness :
    calculate_gex [] 100 0 (45 / 1000) "2026-01-01T00:00:00+00:00" =
      .ok ⟨100, none, 0, [], ⟨none, none, none⟩, "2026-01-01T00:00:00+00:00"⟩ :=
  degenerate_input_empty_result [] 100 0 (45 / 1000)
    "2026-01-01T00:00:00+00:00" (Or.inl rfl)

/-- C10: two invocations with the same options chain, spot price, calendar
date and risk-free rate agree on every result field except the
`last_updated` timestamp. -/
theorem calculate_gex_deterministic (chain : List Contract) (p : ℚ)
    (today : ℤ) (r : ℝ) (now₁ now₂ : String) :
    (calculate_gex chain p today r now₁).map resultCore =
      (calculate_gex chain p today r now₂).map resultCore := by
  unfold calculate_gex
  by_cases h : chain = [] ∨ p ≤ 0
  · rw [if_pos h, if_pos h]
    rfl
  · rw [if_neg h, if_neg h]
    cases accumulate today p r chain [] with
    | error e => rfl
    | ok d => rfl

/-- Helper: transporting an "existence of a first index satisfying `Q`"
statement across one cons cell, when index 0 does not satisfy `Q`. -/
theorem firstIndex_shift {Q Q2 G G2 : ℕ → Prop} (h0 : ¬ Q 0)
    (hq : ∀ j, Q (j + 1) ↔ Q2 j) (hg : ∀ j, G (j + 1) ↔ G2 j) :
    (∃ j, Q j ∧ (∀ k, k < j → ¬ Q k) ∧ G j) ↔
      (∃ j, Q2 j ∧ (∀ k, k < j → ¬ Q2 k) ∧ G2 j) := by
  constructor
  · rintro ⟨j, hj, hmin, hgj⟩
    cases j with
    | zero => exact absurd hj h0
    | succ j =>
        exact ⟨j, (hq j).mp hj,
          fun k hk hk2 => hmin (k + 1) (Nat.succ_lt_succ hk) ((hq k).mpr hk2),
          (hg j).mp hgj⟩
  · rintro ⟨j, hj, hmin, hgj⟩
    refine ⟨j + 1, (hq j).mpr hj, ?_, (hg j).mpr hgj⟩
    intro k hk
    cases k with
    | zero => exact h0
    | succ k =>
        exact fun hk2 =>
          hmin k (Nat.lt_of_succ_lt_succ hk) ((hq k).mp hk2)

/-- The gamma-flip scan loop returns `some s` exactly at the first index
satisfying its invariant predicate. -/
theorem findGammaFlipGo_some_iff (b : Bool) (rows : List GexStrike) (s : ℚ) :
    findGammaFlipGo b rows = some s ↔
      ∃ j, QFlip b rows j ∧ (∀ k, k < j → ¬ QFlip b rows k) ∧
        ∃ row, rows[j]? = some row ∧ s = row.strike := by
  induction rows generalizing b with
  | nil => simp [findGammaFlipGo, QFlip]
  | cons row rest ih =>
      by_cases h1 : row.net_gex < 0
      · have hgo : findGammaFlipGo b (row :: rest) = findGammaFlipGo true rest := by
          simp [findGammaFlipGo, h1]
        rw [hgo, ih true]
        have h0 : ¬ QFlip b (row :: rest) 0 := by
          rintro ⟨row0, h0eq, hpos, -⟩
          simp only [List.getElem?_cons_zero, Option.some_inj] at h0eq
          subst h0eq
          exact absurd hpos (not_lt.mpr h1.le)
        have hq : ∀ j, QFlip b (row :: rest) (j + 1) ↔ QFlip true rest j := by
          intro j
          constructor
          · rintro ⟨rowj, hj, hpos, -⟩
            simp only [List.getElem?_cons_succ] at hj
            exact ⟨rowj, hj, hpos, Or.inl rfl⟩
          · rintro ⟨rowj, hj, hpos, -⟩
            exact ⟨rowj, by simpa using hj, hpos,
              Or.inr ⟨0, row, Nat.succ_pos j, by simp, h1⟩⟩
        have hg : ∀ j,
            (∃ rw2, (row :: rest)[j + 1]? = some rw2 ∧ s = rw2.strike) ↔
              (∃ rw2, rest[j]? = some rw2 ∧ s = rw2.strike) := by
          intro j; simp
        exact (firstIndex_shift h0 hq hg).symm
      · by_cases h2 : 0 < row.net_gex ∧ b = true
        · have hgo : findGammaFlipGo b (row :: rest) = some row.strike := by
            simp [findGammaFlipGo, h1, h2]
          rw [hgo]
          constructor
          · intro hs
            refine ⟨0, ⟨row, by simp, h2.1, Or.inl h2.2⟩,
              fun k hk => absurd hk (Nat.not_lt_zero k),
              ⟨row, by simp, (Option.some_inj.mp hs).symm⟩⟩
          · rintro ⟨j, hQ, hmin, rowj, hjeq, hs⟩
            have hQ0 : QFlip b (row :: rest) 0 :=
              ⟨row, by simp, h2.1, Or.inl h2.2⟩
            cases j with
            | zero =>
                simp only [List.getElem?_cons_zero, Option.some_inj] at hjeq
                subst hjeq
                exact congrArg some hs.symm
            | succ j => exact absurd hQ0 (hmin 0 (Nat.succ_pos j))
        · have hgo : findGammaFlipGo b (row :: rest) = findGammaFlipGo b rest := by
            simp only [findGammaFlipGo, if_neg h1, if_neg h2]
          rw [hgo, ih b]
          have h0 : ¬ QFlip b (row :: rest) 0 := by
            rintro ⟨row0, h0eq, hpos, hdisj⟩
            simp only [List.getElem?_cons_zero, Option.some_inj] at h0eq
            subst h0eq
            rcases hdisj with hb | ⟨i, rowi, hi, -, -⟩
            · exact h2 ⟨hpos, hb⟩
            · exact absurd hi (Nat.not_lt_zero i)
          have hq : ∀ j, QFlip b (row :: rest) (j + 1) ↔ QFlip b rest j := by
            intro j
            constructor
            · rintro ⟨rowj, hj, hpos, hdisj⟩
              simp only [List.getElem?_cons_succ] at hj
              refine ⟨rowj, hj, hpos, ?_⟩
              rcases hdisj with hb | ⟨i, rowi, hi, hieq, hneg⟩
              · exact Or.inl hb
              · cases i with
                | zero =>
                    simp only [List.getElem?_cons_zero, Option.some_inj] at hieq
                    subst hieq
                    exact absurd hneg h1
                | succ i =>
                    simp only [List.getElem?_cons_succ] at hieq
                    exact Or.inr ⟨i, rowi, Nat.lt_of_succ_lt_succ hi, hieq, hneg⟩
            · rintro ⟨rowj, hj, hpos, hdisj⟩
              refine ⟨rowj, by simpa using hj, hpos, ?_⟩
              rcases hdisj with hb | ⟨i, rowi, hi, hieq, hneg⟩
              · exact Or.inl hb
              · exact Or.inr ⟨i + 1, rowi, Nat.succ_lt_succ hi, by simpa using hieq, hneg⟩
          have hg : ∀ j,
              (∃ rw2, (row :: rest)[j + 1]? = some rw2 ∧ s = rw2.strike) ↔
                (∃ rw2, rest[j]? = some rw2 ∧ s = rw2.strike) := by
            intro j; simp
          exact (firstIndex_shift h0 hq hg).symm

/-- C3: the gamma flip is `some s` precisely when `s` is the strike of the
first row (ascending scan order) with strictly positive net GEX preceded by
at least one row with strictly negative net GEX; rows with net GEX zero
count as neither, and when no such row exists (in particular for the empty
list) the flip is `none`. -/
theorem gamma_flip_first_positive_after_negative (rows : List GexStrike)
    (s : ℚ) :
    find_gamma_flip rows = some s ↔
      ∃ j, IsFlipRowAt rows j ∧ (∀ k, k < j → ¬ IsFlipRowAt rows k) ∧
        ∃ row, rows[j]? = some row ∧ s = row.strike := by
  have hQ : ∀ j, QFlip false rows j ↔ IsFlipRowAt rows j := by
    intro j
    unfold QFlip IsFlipRowAt
    simp
  rw [find_gamma_flip, findGammaFlipGo_some_iff]
  constructor
  · rintro ⟨j, h1, h2, h3⟩
    exact ⟨j, (hQ j).mp h1, fun k hk hk2 => h2 k hk ((hQ k).mpr hk2), h3⟩
  · rintro ⟨j, h1, h2, h3⟩
    exact ⟨j, (hQ j).mpr h1, fun k hk hk2 => h2 k hk ((hQ k).mp hk2), h3⟩

/-- Evaluation: a non-numeric strike string raises `ValueError` at the
`float(strike_raw)` cast. -/
theorem processContract_badStrikeStr (r : ℝ) :
    processContract 0 100 r badStrikeStrContract = .error .valueError := by
  have hlow : pyLower "call" = "call" := by decide
  simp [processContract, badStrikeStrContract, hlow, pyFloat]

/-- Evaluation: a negative strike passes validation and filtering, then
`math.log(S / K)` raises `ValueError` inside the gamma computation. -/
theorem processContract_negStrike (r : ℝ) :
    processContract 0 100 r negStrikeContract = .error .valueError := by
  have hlow : pyLower "call" = "call" := by decide
  norm_num [processContract, negStrikeContract, hlow, pyFloat, pyInt,
    time_to_expiry_years, resolveSigma, numVal?, bs_gamma, bs_d1,
    MIN_SIGMA_SQRT_T, Real.sqrt_one]

/-- Evaluation: a contract with open interest `-100` is NOT filtered (only
`oi == 0` is) and produces a strike-row contribution. -/
theorem processContract_negOi (r : ℝ) :
    ∃ g : ℝ, processContract 0 100 r negOiContract = .ok (some (100, true, g)) := by
  have hlow : pyLower "call" = "call" := by decide
  exact ⟨_, by
    norm_num [processContract, negOiContract, hlow, pyFloat, pyInt,
      time_to_expiry_years, resolveSigma, numVal?, bs_gamma, bs_d1,
      MIN_SIGMA_SQRT_T, Real.sqrt_one]
    rfl⟩

/-- C1 counterexample: `calculate_gex` raises (does not skip) on a record
whose strike is a non-numeric string, and on a record with a negative
strike — contradicting "every per-record anomaly is handled by skipping
that record". -/
theorem calculate_gex_raises_on_bad_records :
    calculate_gex [badStrikeStrContract] 100 0 (45 / 1000) "t" =
      .error .valueError ∧
    calculate_gex [negStrikeContract] 100 0 (45 / 1000) "t" =
      .error .valueError := by
  constructor
  · norm_num [calculate_gex, accumulate, processContract_badStrikeStr]
  · norm_num [calculate_gex, accumulate, processContract_negStrike]

/-- C2 counterexample: a contract with open interest `-100` produces a
strike row (strike 100), so contracts with negative open interest are NOT
excluded from every `StrikeRow`. -/
theorem negative_oi_contributes_strike_row :
    (calculate_gex [negOiContract] 100 0 0 "t").map
        (fun g => g.strikes.map GexStrike.strike) = .ok [100] := by
  obtain ⟨g, hg⟩ := processContract_negOi 0
  norm_num [calculate_gex, accumulate, hg, updateStrikeGex, buildStrikeRows,
    lookupGex, List.insertionSort, List.orderedInsert, Except.map]

/-- A contract with castable fields and `oi = 0` or non-positive
time-to-expiry is skipped by the per-contract step. -/
theorem processContract_skips_zero_oi_or_expired (today : ℤ) (S : ℚ) (r : ℝ)
    (c : Contract) (sv ov : JVal) (K : ℚ) (oi : ℤ)
    (hst : c.strike = some sv) (hoi : c.openInterest = some ov)
    (hK : pyFloat sv = .ok K) (hcast : pyInt ov = .ok oi)
    (hskip : oi = 0 ∨ time_to_expiry_years today c.expirationDate ≤ 0) :
    processContract today S r c = .ok none := by
  simp only [processContract, hst, hoi]
  by_cases htype : pyLower (c.type_.getD "") ≠ "call" ∧ pyLower (c.type_.getD "") ≠ "put"
  · rw [if_pos htype]
  · rw [if_neg htype]
    simp only [hK, hcast]
    rcases hskip with h0 | hT
    · simp [h0]
    · by_cases h0 : oi = 0
      · simp [h0]
      · simp [h0, hT]

/-- Skipped contracts are invisible to the accumulation loop. -/
theorem accumulate_skip (today : ℤ) (S : ℚ) (r : ℝ) (c : Contract)
    (hc : processContract today S r c = .ok none) (pre post : List Contract)
    (d : List (ℚ × ℝ × ℝ)) :
    accumulate today S r (pre ++ c :: post) d =
      accumulate today S r (pre ++ post) d := by
  induction pre generalizing d with
  | nil => simp [accumulate, hc]
  | cons c2 rest ih =>
      simp only [List.cons_append, accumulate]
      cases processContract today S r c2 with
      | error e => rfl
      | ok o =>
          cases o with
          | none => exact ih d
          | some t => exact ih (updateStrikeGex d t.1 t.2.1 t.2.2)

/-- C2 (amended): a contract whose strike and open-interest fields cast
cleanly and whose open interest equals 0 — or whose year-fraction
time-to-expiry is ≤ 0 — is excluded from every `StrikeRow`: the result is
identical to the result without that contract.  (The original "open
interest ≤ 0" is refuted by `negative_oi_contributes_strike_row`: only
`oi == 0` is filtered, strictly negative open interest contributes.) -/
theorem zero_oi_or_expired_excluded (today : ℤ) (p : ℚ) (r : ℝ)
    (now : String) (c : Contract) (sv ov : JVal) (K : ℚ) (oi : ℤ)
    (pre post : List Contract)
    (hst : c.strike = some sv) (hoi : c.openInterest = some ov)
    (hK : pyFloat sv = .ok K) (hcast : pyInt ov = .ok oi)
    (hskip : oi = 0 ∨ time_to_expiry_years today c.expirationDate ≤ 0) :
    calculate_gex (pre ++ c :: post) p today r now =
      calculate_gex (pre ++ post) p today r now := by
  have hc : processContract today p r c = .ok none :=
    processContract_skips_zero_oi_or_expired today p r c sv ov K oi hst hoi
      hK hcast hskip
  by_cases hp : p ≤ 0
  · unfold calculate_gex
    rw [if_pos (Or.inr hp), if_pos (Or.inr hp)]
  · by_cases hempty : (pre ++ post : List Contract) = []
    · have hpre : pre = [] := by
        cases pre with
        | nil => rfl
        | cons a l => simp at hempty
      have hpost : post = [] := by
        cases post with
        | nil => rfl
        | cons a l => rw [hpre] at hempty; simp at hempty
      subst hpre; subst hpost
      simp only [List.nil_append]
      unfold calculate_gex
      rw [if_neg (by simp [hp]), if_pos (Or.inl rfl)]
      simp [accumulate, hc, buildStrikeRows, List.insertionSort,
        find_gamma_flip, findGammaFlipGo, compute_key_levels]
    · unfold calculate_gex
      rw [if_neg (by simp [hempty, hp]), if_neg (by simp [hempty, hp]),
        accumulate_skip today p r c hc pre post []]

/-- Witness for C2 (amended): a zero-OI contract between two other copies
of the chain is dropped without changing the result. -/
theorem zero_oi_or_expired_excluded_witness :
    calculate_gex [plainIvContract,
        { plainIvContract with openInterest := some (.intv 0) }] 100 0 0 "t" =
      calculate_gex [plainIvContract] 100 0 0 "t" :=
  zero_oi_or_expired_excluded 0 100 0 "t"
    { plainIvContract with openInterest := some (.intv 0) }
    (.intv 100) (.intv 0) 100 0 [plainIvContract] []
    rfl rfl rfl rfl (Or.inl rfl)

/-- The standard normal density is non-negative. -/
theorem normPdf_nonneg (x : ℝ) : 0 ≤ normPdf x :=
  div_nonneg (Real.exp_nonneg _) (Real.sqrt_nonneg _)

/-- An `Except` value that is no error is an `ok`. -/
theorem exists_ok_of_no_error {α : Type} (e : Except PyErr α)
    (h : ∀ err, e ≠ .error err) : ∃ p, e = .ok p := by
  cases e with
  | ok p => exact ⟨p, rfl⟩
  | error err => exact absurd rfl (h err)

/-- With a positive spot and strike, a non-negative time and a non-zero
`sigma * sqrt T`, the Black-Scholes price computation raises nothing. -/
theorem bs_price_ok (S K r sigma T : ℝ) (ot : String) (hS : 0 < S)
    (hK : 0 < K) (hT : 0 ≤ T) (hs : sigma * Real.sqrt T ≠ 0) :
    ∃ p, bs_price S K r sigma T ot = .ok p := by
  have hd1 : bs_d1 S K r sigma T =
      .ok ((Real.log (S / K) + (r + 0.5 * sigma ^ 2) * T) / (sigma * Real.sqrt T)) := by
    unfold bs_d1
    rw [if_neg (ne_of_gt hK), if_neg (not_le.mpr (div_pos hS hK)),
      if_neg (not_lt.mpr hT), if_neg hs]
  refine exists_ok_of_no_error _ ?_
  intro err hcontra
  by_cases hcall : pyLower ot = "call" <;>
    simp [bs_price, hd1, hcall] at hcontra

/-- With positive spot, strike and time, the bisection loop raises nothing
as long as both interval ends are positive. -/
theorem ivBisectGo_ok (m S K r T : ℝ) (ot : String) (hS : 0 < S)
    (hK : 0 < K) (hT : 0 < T) :
    ∀ fuel low high, 0 < low → 0 < high →
      ∃ o, ivBisectGo m S K r T ot fuel low high = .ok o := by
  intro fuel
  induction fuel with
  | zero => exact fun low high _ _ => ⟨none, rfl⟩
  | succ n ih =>
      intro low high hlow hhigh
      have hmid : 0 < (low + high) / 2 := by linarith
      have hmul : (low + high) / 2 * Real.sqrt T ≠ 0 :=
        ne_of_gt (mul_pos hmid (Real.sqrt_pos.mpr hT))
      obtain ⟨p, hp⟩ := bs_price_ok S K r ((low + high) / 2) T ot hS hK hT.le hmul
      simp only [ivBisectGo, hp]
      by_cases h1 : |p - m| < IV_BISECT_TOLERANCE
      · exact ⟨some ((low + high) / 2), by rw [if_pos h1]⟩
      · rw [if_neg h1]
        by_cases h2 : p - m < 0
        · rw [if_pos h2]; exact ih ((low + high) / 2) high hmid hhigh
        · rw [if_neg h2]; exact ih low ((low + high) / 2) hlow hmid

/-- With positive spot, strike and time, the whole bisection solver raises
nothing. -/
theorem ivBisect_ok (m S K r T : ℝ) (ot : String) (hS : 0 < S) (hK : 0 < K)
    (hT : 0 < T) : ∃ o, ivBisect m S K r T ot = .ok o := by
  unfold ivBisect
  by_cases h1 : m ≤ 0
  · exact ⟨none, by rw [if_pos h1]⟩
  · rw [if_neg h1]
    by_cases h2 : m < intrinsicValue S K r T ot - IV_BISECT_TOLERANCE
    · exact ⟨none, by rw [if_pos h2]⟩
    · rw [if_neg h2]
      have hlowpos : (0 : ℝ) < IV_BISECT_LOW := by norm_num [IV_BISECT_LOW]
      have hhighpos : (0 : ℝ) < IV_BISECT_HIGH := by norm_num [IV_BISECT_HIGH]
      have hsqrt : 0 < Real.sqrt T := Real.sqrt_pos.mpr hT
      obtain ⟨pl, hpl⟩ := bs_price_ok S K r IV_BISECT_LOW T ot hS hK hT.le
        (ne_of_gt (mul_pos hlowpos hsqrt))
      obtain ⟨ph, hph⟩ := bs_price_ok S K r IV_BISECT_HIGH T ot hS hK hT.le
        (ne_of_gt (mul_pos hhighpos hsqrt))
      simp only [hpl, hph]
      by_cases h3 : m < pl - IV_BISECT_TOLERANCE
      · exact ⟨none, by rw [if_pos h3]⟩
      · rw [if_neg h3]
        by_cases h4 : ph + IV_BISECT_TOLERANCE < m
        · exact ⟨none, by rw [if_pos h4]⟩
        · rw [if_neg h4]
          exact ivBisectGo_ok m S K r T ot hS hK hT IV_BISECT_MAX_ITER
            IV_BISECT_LOW IV_BISECT_HIGH hlowpos hhighpos

/-- With positive spot, strike and non-negative time, the gamma computation
raises nothing, its value is non-negative, and it is exactly `0` under the
`MIN_SIGMA_SQRT_T` guard. -/
theorem bs_gamma_ok (S K r sigma T : ℝ) (hS : 0 < S) (hK : 0 < K)
    (hT : 0 ≤ T) :
    ∃ g, bs_gamma S K r sigma T = .ok g ∧ 0 ≤ g ∧
      (sigma * Real.sqrt T < MIN_SIGMA_SQRT_T → g = 0) := by
  unfold bs_gamma
  by_cases hguard : sigma * Real.sqrt T < MIN_SIGMA_SQRT_T
  · exact ⟨0, by rw [if_pos hguard], le_refl 0, fun _ => rfl⟩
  · rw [if_neg hguard]
    have hpos : 0 < sigma * Real.sqrt T :=
      lt_of_lt_of_le (by norm_num [MIN_SIGMA_SQRT_T]) (not_lt.mp hguard)
    have hd1 : bs_d1 S K r sigma T =
        .ok ((Real.log (S / K) + (r + 0.5 * sigma ^ 2) * T) / (sigma * Real.sqrt T)) := by
      unfold bs_d1
      rw [if_neg (ne_of_gt hK), if_neg (not_le.mpr (div_pos hS hK)),
        if_neg (not_lt.mpr hT), if_neg (ne_of_gt hpos)]
    refine ⟨normPdf ((Real.log (S / K) + (r + 0.5 * sigma ^ 2) * T) /
        (sigma * Real.sqrt T)) / (S * (sigma * Real.sqrt T)), ?_,
      div_nonneg (normPdf_nonneg _) (mul_pos hS hpos).le,
      fun h => absurd h hguard⟩
    simp [hd1, ne_of_gt (mul_pos hS hpos)]

/-- With positive spot, strike and time-to-expiry, volatility resolution
raises nothing. -/
theorem resolveSigma_ok (S : ℚ) (r : ℝ) (K T : ℚ) (ot : String)
    (c : Contract) (hS : 0 < S) (hK : 0 < K) (hT : 0 < T) :
    ∃ o, resolveSigma S r K T ot c = .ok o := by
  have hS' : (0 : ℝ) < (S : ℝ) := by exact_mod_cast hS
  have hK' : (0 : ℝ) < (K : ℝ) := by exact_mod_cast hK
  have hT' : (0 : ℝ) < (T : ℝ) := by exact_mod_cast hT
  refine exists_ok_of_no_error _ ?_
  intro err hcontra
  unfold resolveSigma at hcontra
  cases hiv : numVal? c.impliedVolatility with
  | some iv =>
      rw [hiv] at hcontra
      by_cases hpos : 0 < iv
      · simp [hpos] at hcontra
      · cases hmp : extract_market_price c with
        | some m =>
            obtain ⟨o, ho⟩ := ivBisect_ok ((m : ℝ)) _ _ r _ ot hS' hK' hT'
            simp [hpos, hmp, ho] at hcontra
        | none => simp [hpos, hmp] at hcontra
  | none =>
      rw [hiv] at hcontra
      cases hmp : extract_market_price c with
      | some m =>
          obtain ⟨o, ho⟩ := ivBisect_ok ((m : ℝ)) _ _ r _ ot hS' hK' hT'
          simp [hmp, ho] at hcontra
      | none => simp [hmp] at hcontra

/-- A safe contract (castable strike/OI, positive strike) never raises in
the per-contract step. -/
theorem processContract_ok (today : ℤ) (S : ℚ) (r : ℝ) (c : Contract)
    (hsafe : SafeContract c) (hS : 0 < S) :
    ∃ o, processContract today S r c = .ok o := by
  refine exists_ok_of_no_error _ ?_
  intro err hcontra
  unfold processContract at hcontra
  cases hst : c.strike with
  | none => rw [hst] at hcontra; simp at hcontra
  | some sv =>
      rw [hst] at hcontra
      cases hoi : c.openInterest with
      | none => rw [hoi] at hcontra; simp at hcontra
      | some ov =>
          rw [hoi] at hcontra
          obtain ⟨K, hK, hKpos⟩ := hsafe.1 sv hst
          obtain ⟨oi, hcast⟩ := hsafe.2 ov hoi
          by_cases htype : pyLower (c.type_.getD "") ≠ "call" ∧
            pyLower (c.type_.getD "") ≠ "put"
          · simp only [if_pos htype] at hcontra
            exact Except.noConfusion hcontra
          · by_cases h0 : oi = 0
            · simp [htype, hK, hcast, h0] at hcontra
            · by_cases hT : time_to_expiry_years today c.expirationDate ≤ 0
              · simp [htype, hK, hcast, h0, hT] at hcontra
              · obtain ⟨o, ho⟩ := resolveSigma_ok S r K
                  (time_to_expiry_years today c.expirationDate)
                  (pyLower (c.type_.getD "")) c hS hKpos (not_le.mp hT)
                cases o with
                | none => simp [htype, hK, hcast, h0, hT, ho] at hcontra
                | some sigma =>
                    by_cases hs0 : sigma ≤ 0
                    · simp [htype, hK, hcast, h0, hT, ho, hs0] at hcontra
                    · by_cases hguard : sigma *
                        Real.sqrt ((time_to_expiry_years today c.expirationDate : ℝ)) <
                          MIN_SIGMA_SQRT_T
                      · simp [htype, hK, hcast, h0, hT, ho, hs0, hguard] at hcontra
                      · have hS' : (0 : ℝ) < (S : ℝ) := by exact_mod_cast hS
                        have hK' : (0 : ℝ) < (K : ℝ) := by exact_mod_cast hKpos
                        have hT' : (0 : ℝ) ≤
                            ((time_to_expiry_years today c.expirationDate : ℚ) : ℝ) := by
                          have := (not_le.mp hT).le
                          exact_mod_cast this
                        obtain ⟨g, hg, -, -⟩ := bs_gamma_ok (S : ℝ) (K : ℝ) r sigma
                          ((time_to_expiry_years today c.expirationDate : ℝ)) hS' hK' hT'
                        simp [htype, hK, hcast, h0, hT, ho, hs0, hguard, hg] at hcontra

/-- A chain of safe contracts never raises in the accumulation loop. -/
theorem accumulate_ok (today : ℤ) (S : ℚ) (r : ℝ) (chain : List Contract)
    (hsafe : ∀ c ∈ chain, SafeContract c) (hS : 0 < S) :
    ∀ d, ∃ d2, accumulate today S r chain d = .ok d2 := by
  induction chain with
  | nil => exact fun d => ⟨d, rfl⟩
  | cons c rest ih =>
      intro d
      obtain ⟨o, ho⟩ := processContract_ok today S r c
        (hsafe c (List.mem_cons_self c rest)) hS
      have hrest : ∀ c2 ∈ rest, SafeContract c2 :=
        fun c2 h2 => hsafe c2 (List.mem_cons_of_mem c h2)
      cases o with
      | none =>
          obtain ⟨d2, hd2⟩ := ih hrest d
          exact ⟨d2, by simp [accumulate, ho, hd2]⟩
      | some t =>
          obtain ⟨d2, hd2⟩ := ih hrest (updateStrikeGex d t.1 t.2.1 t.2.2)
          exact ⟨d2, by simp [accumulate, ho, hd2]⟩

/-- C1 (amended): `calculate_gex` returns a `GexResult` without raising for
every options chain in which each record's `strike` and `openInterest`
fields, when present, cast cleanly to numbers with a strictly positive
strike; all other per-record anomalies (missing/null fields, unrecognized
option class, non-numeric or non-positive volatility/bid/ask/last price,
unparseable expiration, zero open interest, expired contracts) are handled
by skipping the record.  (The unrestricted claim is refuted by
`calculate_gex_raises_on_bad_records`: a non-castable strike or open
interest raises `ValueError`/`TypeError`, and a non-positive strike raises
`ValueError` inside `math.log`.) -/
theorem calculate_gex_total_on_safe_chains (chain : List Contract) (p : ℚ)
    (today : ℤ) (r : ℝ) (now : String)
    (hsafe : ∀ c ∈ chain, SafeContract c) :
    ∃ res, calculate_gex chain p today r now = .ok res := by
  unfold calculate_gex
  by_cases hdeg : chain = [] ∨ p ≤ 0
  · exact ⟨_, by rw [if_pos hdeg]⟩
  · rw [if_neg hdeg]
    have hp : 0 < p := by
      rcases not_or.mp hdeg with ⟨-, h2⟩
      exact not_le.mp h2
    obtain ⟨d, hd⟩ := accumulate_ok today p r chain hsafe hp []
    exact ⟨_, by rw [hd]⟩

/-- Witness for C1 (amended): a concrete chain of two safe contracts (one
of them full of junk in the unchecked fields) yields an `ok` result. -/
theorem calculate_gex_total_on_safe_chains_witness :
    ∃ res, calculate_gex [plainIvContract,
        { plainIvContract with
            impliedVolatility := some JVal.other,
            bid := some (JVal.strv none none), ask := some JVal.other,
            lastPrice := some (JVal.floatv (-3)), type_ := some "PUT",
            expirationDate := none }] 100 0 0 "t" = .ok res := by
  refine calculate_gex_total_on_safe_chains _ 100 0 0 "t" ?_
  intro c hc
  simp only [List.mem_cons, List.not_mem_nil, or_false] at hc
  rcases hc with h | h <;> subst h <;>
    exact ⟨fun v hv => by
        cases hv
        exact ⟨((100 : ℤ) : ℚ), rfl, by norm_num⟩,
      fun v hv => by
        cases hv
        exact ⟨10, rfl⟩⟩

/-- Market-price extraction follows the spec's preference order: positive
bid/ask mid first, then positive last price, else nothing. -/
theorem extract_market_price_spec (c : Contract) :
    (∀ b a, numVal? c.bid = some b → numVal? c.ask = some a → 0 < b → 0 < a →
      extract_market_price c = some ((b + a) / 2)) ∧
    ((¬ ∃ b a, numVal? c.bid = some b ∧ numVal? c.ask = some a ∧
        0 < b ∧ 0 < a) →
      ((∀ l, numVal? c.lastPrice = some l → 0 < l →
          extract_market_price c = some l) ∧
       ((∀ l, numVal? c.lastPrice = some l → l ≤ 0) →
          extract_market_price c = none))) := by
  constructor
  · intro b a hb ha hbp hap
    simp [extract_market_price, hb, ha, hbp, hap]
  · intro hno
    constructor
    · intro l hl hlp
      cases hb : numVal? c.bid with
      | none => simp [extract_market_price, hb, hl, hlp]
      | some b =>
          cases ha : numVal? c.ask with
          | none => simp [extract_market_price, hb, ha, hl, hlp]
          | some a =>
              have hnotpos : ¬ (0 < b ∧ 0 < a) := by
                rintro ⟨h1, h2⟩
                exact hno ⟨b, a, hb, ha, h1, h2⟩
              simp [extract_market_price, hb, ha, hnotpos, hl, hlp]
    · intro hlast
      cases hb : numVal? c.bid with
      | none =>
          cases hl : numVal? c.lastPrice with
          | none => simp [extract_market_price, hb, hl]
          | some l =>
              simp [extract_market_price, hb, hl,
                not_lt.mpr (hlast l hl)]
      | some b =>
          cases ha : numVal? c.ask with
          | none =>
              cases hl : numVal? c.lastPrice with
              | none => simp [extract_market_price, hb, ha, hl]
              | some l =>
                  simp [extract_market_price, hb, ha, hl,
                    not_lt.mpr (hlast l hl)]
          | some a =>
              have hnotpos : ¬ (0 < b ∧ 0 < a) := by
                rintro ⟨h1, h2⟩
                exact hno ⟨b, a, hb, ha, h1, h2⟩
              cases hl : numVal? c.lastPrice with
              | none => simp [extract_market_price, hb, ha, hnotpos, hl]
              | some l =>
                  simp [extract_market_price, hb, ha, hnotpos, hl,
                    not_lt.mpr (hlast l hl)]

/-- C5: volatility resolution preference order.  (1) A numeric supplied
implied volatility `> 0` is used directly; (2) otherwise, with both bid and
ask numeric and strictly positive, the bisection solver is fed the
arithmetic mid `(bid+ask)/2`; (3) otherwise a strictly positive numeric
last traded price feeds the solver; (4) otherwise no volatility results
(skip); and (5) a contract that passes validation and filtering but whose
resolution produces no volatility is skipped by the per-contract step. -/
theorem volatility_resolution_preference (S : ℚ) (r : ℝ) (K T : ℚ)
    (ot : String) (c : Contract) (today : ℤ) :
    ((∀ iv, numVal? c.impliedVolatility = some iv → 0 < iv →
        resolveSigma S r K T ot c = .ok (some ((iv : ℝ)))) ∧
     ((∀ iv, numVal? c.impliedVolatility = some iv → iv ≤ 0) →
       ((∀ b a, numVal? c.bid = some b → numVal? c.ask = some a →
           0 < b → 0 < a →
           resolveSigma S r K T ot c =
             ivBisect ((((b + a) / 2 : ℚ) : ℝ)) ((S : ℝ)) ((K : ℝ)) r
               ((T : ℝ)) ot) ∧
        ((¬ ∃ b a, numVal? c.bid = some b ∧ numVal? c.ask = some a ∧
            0 < b ∧ 0 < a) →
          ((∀ l, numVal? c.lastPrice = some l → 0 < l →
              resolveSigma S r K T ot c =
                ivBisect (((l : ℚ) : ℝ)) ((S : ℝ)) ((K : ℝ)) r ((T : ℝ)) ot) ∧
           ((∀ l, numVal? c.lastPrice = some l → l ≤ 0) →
              resolveSigma S r K T ot c = .ok none)))))) ∧
    (∀ sv ov K2 oi, c.strike = some sv → c.openInterest = some ov →
      pyFloat sv = .ok K2 → pyInt ov = .ok oi → oi ≠ 0 →
      0 < time_to_expiry_years today c.expirationDate →
      resolveSigma S r K2 (time_to_expiry_years today c.expirationDate)
        (pyLower (c.type_.getD "")) c = .ok none →
      processContract today S r c = .ok none) := by
  have hfall : ∀ m, extract_market_price c = m →
      (∀ iv, numVal? c.impliedVolatility = some iv → iv ≤ 0) →
      resolveSigma S r K T ot c =
        (match m with
         | some mp => ivBisect ((mp : ℝ)) ((S : ℝ)) ((K : ℝ)) r ((T : ℝ)) ot
         | none => .ok none) := by
    intro m hm hiv0
    cases hiv : numVal? c.impliedVolatility with
    | none => simp [resolveSigma, hiv, hm]
    | some iv => simp [resolveSigma, hiv, not_lt.mpr (hiv0 iv hiv), hm]
  obtain ⟨hmid, hrest⟩ := extract_market_price_spec c
  refine ⟨⟨?_, ?_⟩, ?_⟩
  · intro iv hiv hpos
    simp [resolveSigma, hiv, hpos]
  · intro hiv0
    refine ⟨?_, ?_⟩
    · intro b a hb ha hbp hap
      exact hfall _ (hmid b a hb ha hbp hap) hiv0
    · intro hno
      refine ⟨?_, ?_⟩
      · intro l hl hlp
        exact hfall _ ((hrest hno).1 l hl hlp) hiv0
      · intro hlast
        exact hfall _ ((hrest hno).2 hlast) hiv0
  · intro sv ov K2 oi hst hoi hK hcast h0 hT hres
    by_cases htype : pyLower (c.type_.getD "") ≠ "call" ∧
      pyLower (c.type_.getD "") ≠ "put"
    · simp [processContract, hst, hoi, htype]
    · simp [processContract, hst, hoi, htype, hK, hcast, h0,
        not_le.mpr hT, hres]

/-- Witness for C5 at a concrete contract: the supplied positive implied
volatility is used directly. -/
theorem volatility_resolution_preference_witness :
    resolveSigma 100 0 100 1 "call" plainIvContract =
      .ok (some (((1 / 2 : ℚ) : ℝ))) :=
  (volatility_resolution_preference 100 0 100 1 "call" plainIvContract 0).1.1
    (1 / 2) rfl (by norm_num)

/-- Any volatility returned by the bisection loop lies in the current
interval and reprices to within the tolerance of the target price. -/
theorem ivBisectGo_some_inv (m S K r T : ℝ) (ot : String) :
    ∀ fuel low high σ, low ≤ high →
      ivBisectGo m S K r T ot fuel low high = .ok (some σ) →
      low ≤ σ ∧ σ ≤ high ∧
        ∀ p, bs_price S K r σ T ot = .ok p → |p - m| < IV_BISECT_TOLERANCE := by
  intro fuel
  induction fuel with
  | zero =>
      intro low high σ hlh heq
      exact absurd heq (by simp [ivBisectGo])
  | succ n ih =>
      intro low high σ hlh heq
      simp only [ivBisectGo] at heq
      split at heq
      · exact Except.noConfusion heq
      · rename_i pm hbp
        split at heq
        · rename_i h1
          have hσ : σ = (low + high) / 2 :=
            (Option.some_inj.mp (Except.ok.inj heq)).symm
          subst hσ
          refine ⟨by linarith, by linarith, ?_⟩
          intro p hp
          rw [hbp] at hp
          rwa [Except.ok.inj hp] at h1
        · rename_i h1
          split at heq
          · obtain ⟨ha, hb, hc⟩ := ih ((low + high) / 2) high σ
              (by linarith) heq
            exact ⟨by linarith, hb, hc⟩
          · obtain ⟨ha, hb, hc⟩ := ih low ((low + high) / 2) σ
              (by linarith) heq
            exact ⟨ha, by linarith, hc⟩

/-- Any volatility the whole solver returns lies in the search interval and
reprices to within the tolerance of the market price. -/
theorem ivBisect_some_inv (m S K r T : ℝ) (ot : String) (σ : ℝ)
    (heq : ivBisect m S K r T ot = .ok (some σ)) :
    (IV_BISECT_LOW ≤ σ ∧ σ ≤ IV_BISECT_HIGH) ∧
      ∀ p, bs_price S K r σ T ot = .ok p → |p - m| < IV_BISECT_TOLERANCE := by
  unfold ivBisect at heq
  split at heq
  · simp at heq
  · split at heq
    · simp at heq
    · split at heq
      · exact Except.noConfusion heq
      · split at heq
        · exact Except.noConfusion heq
        · split at heq
          · simp at heq
          · split at heq
            · simp at heq
            · obtain ⟨ha, hb, hc⟩ := ivBisectGo_some_inv m S K r T ot
                IV_BISECT_MAX_ITER IV_BISECT_LOW IV_BISECT_HIGH σ
                (by norm_num [IV_BISECT_LOW, IV_BISECT_HIGH]) heq
              exact ⟨⟨ha, hb⟩, hc⟩

/-- C4 (amended by requiring a positive spot and strike, without which the
price evaluation raises instead of returning "no result"): the bisection
solver never errors; each precondition failure (non-positive market price,
market price below discounted intrinsic minus tolerance, market price
outside the achievable band) yields `none`; exhausting the iteration fuel
yields `none` by construction; and any returned volatility lies in
`[0.01, 5.0]` and reprices to within `1e-4` of the market price. -/
theorem bisection_none_or_valid (m S K r T : ℝ) (ot : String)
    (hS : 0 < S) (hK : 0 < K) (hT : 0 < T) :
    (∃ o, ivBisect m S K r T ot = .ok o) ∧
    (m ≤ 0 → ivBisect m S K r T ot = .ok none) ∧
    (m < intrinsicValue S K r T ot - IV_BISECT_TOLERANCE →
      ivBisect m S K r T ot = .ok none) ∧
    (∀ pl, bs_price S K r IV_BISECT_LOW T ot = .ok pl →
      m < pl - IV_BISECT_TOLERANCE → ivBisect m S K r T ot = .ok none) ∧
    (∀ ph, bs_price S K r IV_BISECT_HIGH T ot = .ok ph →
      ph + IV_BISECT_TOLERANCE < m → ivBisect m S K r T ot = .ok none) ∧
    (∀ σ, ivBisect m S K r T ot = .ok (some σ) →
      (IV_BISECT_LOW ≤ σ ∧ σ ≤ IV_BISECT_HIGH) ∧
        ∀ p, bs_price S K r σ T ot = .ok p → |p - m| < IV_BISECT_TOLERANCE) := by
  have hsqrt : 0 < Real.sqrt T := Real.sqrt_pos.mpr hT
  have hlowpos : (0 : ℝ) < IV_BISECT_LOW := by norm_num [IV_BISECT_LOW]
  have hhighpos : (0 : ℝ) < IV_BISECT_HIGH := by norm_num [IV_BISECT_HIGH]
  obtain ⟨pl, hpl⟩ := bs_price_ok S K r IV_BISECT_LOW T ot hS hK hT.le
    (ne_of_gt (mul_pos hlowpos hsqrt))
  obtain ⟨ph, hph⟩ := bs_price_ok S K r IV_BISECT_HIGH T ot hS hK hT.le
    (ne_of_gt (mul_pos hhighpos hsqrt))
  refine ⟨ivBisect_ok m S K r T ot hS hK hT, ?_, ?_, ?_, ?_, ?_⟩
  · intro h1
    simp [ivBisect, h1]
  · intro h2
    by_cases h1 : m ≤ 0
    · simp [ivBisect, h1]
    · simp [ivBisect, h1, h2]
  · intro pl2 hpl2 h3
    rw [hpl] at hpl2
    have hpleq := Except.ok.inj hpl2
    subst hpleq
    by_cases h1 : m ≤ 0
    · simp [ivBisect, h1]
    · by_cases h2 : m < intrinsicValue S K r T ot - IV_BISECT_TOLERANCE
      · simp [ivBisect, h1, h2]
      · simp [ivBisect, h1, h2, hpl, hph, h3]
  · intro ph2 hph2 h4
    rw [hph] at hph2
    have hpheq := Except.ok.inj hph2
    subst hpheq
    by_cases h1 : m ≤ 0
    · simp [ivBisect, h1]
    · by_cases h2 : m < intrinsicValue S K r T ot - IV_BISECT_TOLERANCE
      · simp [ivBisect, h1, h2]
      · by_cases h3 : m < pl - IV_BISECT_TOLERANCE
        · simp [ivBisect, h1, h2, hpl, hph, h3]
        · simp [ivBisect, h1, h2, hpl, hph, h3, h4]
  · exact fun σ heq => ivBisect_some_inv m S K r T ot σ heq

/-- C4 counterexample: with a negative strike the solver raises
`ValueError` (from `math.log`) instead of returning "no result". -/
theorem bisection_raises_on_negative_strike :
    ivBisect 250 100 (-100) 0 1 "call" = .error .valueError := by
  have hlow : pyLower "call" = "call" := by decide
  norm_num [ivBisect, intrinsicValue, bs_price, bs_d1, hlow,
    IV_BISECT_TOLERANCE, Real.exp_zero]

/-- Witness for C4 (amended) at a concrete input. -/
theorem bisection_none_or_valid_witness :
    ∃ o, ivBisect 1 1 1 0 1 "call" = .ok o :=
  (bisection_none_or_valid 1 1 1 0 1 "call" (by norm_num) (by norm_num)
    (by norm_num)).1

/-- The bisection loop executes at most `fuel` iterations. -/
theorem ivBisectGoSteps_le_fuel (m S K r T : ℝ) (ot : String) :
    ∀ fuel low high, ivBisectGoSteps m S K r T ot fuel low high ≤ fuel := by
  intro fuel
  induction fuel with
  | zero => intro low high; simp [ivBisectGoSteps]
  | succ n ih =>
      intro low high
      simp only [ivBisectGoSteps]
      split
      · omega
      · split
        · omega
        · split
          · have := ih ((low + high) / 2) high
            omega
          · have := ih low ((low + high) / 2)
            omega

/-- C9: for positive spot, strike, volatility and time, Black-Scholes gamma
is computed without error and is non-negative, equals exactly `0` whenever
`sigma * sqrt T` is below the `1e-8` guard, and the bisection loop always
terminates, executing at most `IV_BISECT_MAX_ITER = 100` iterations. -/
theorem gamma_nonneg_and_iterations_bounded (S K r sigma T : ℝ)
    (hS : 0 < S) (hK : 0 < K) (hsigma : 0 < sigma) (hT : 0 < T) :
    (∃ g, bs_gamma S K r sigma T = .ok g ∧ 0 ≤ g ∧
      (sigma * Real.sqrt T < MIN_SIGMA_SQRT_T → g = 0)) ∧
    (∀ m ot low high,
      ivBisectGoSteps m S K r T ot IV_BISECT_MAX_ITER low high ≤ 100) := by
  refine ⟨bs_gamma_ok S K r sigma T hS hK hT.le, ?_⟩
  intro m ot low high
  exact le_trans (ivBisectGoSteps_le_fuel m S K r T ot IV_BISECT_MAX_ITER
    low high) (by norm_num [IV_BISECT_MAX_ITER])

/-- Witness for C9 at a concrete input. -/
theorem gamma_nonneg_and_iterations_bounded_witness :
    (∃ g, bs_gamma 100 100 0 (1 / 2) 1 = .ok g ∧ 0 ≤ g ∧
      ((1 / 2 : ℝ) * Real.sqrt 1 < MIN_SIGMA_SQRT_T → g = 0)) ∧
    (∀ m ot low high,
      ivBisectGoSteps m 100 100 0 1 ot IV_BISECT_MAX_ITER low high ≤ 100) :=
  gamma_nonneg_and_iterations_bounded 100 100 0 (1 / 2) 1 (by norm_num)
    (by norm_num) (by norm_num) (by norm_num)

/-- The standard normal density expressed in Gaussian-integral form. -/
theorem normPdf_eq (x : ℝ) :
    normPdf x = Real.exp (-(2⁻¹ : ℝ) * x ^ 2) / Real.sqrt (2 * Real.pi) := by
  unfold normPdf
  ring_nf

/-- The standard normal density is integrable. -/
theorem integrable_normPdf : Integrable normPdf := by
  have h := (integrable_exp_neg_mul_sq (by norm_num : (0 : ℝ) < 2⁻¹)).div_const
    (Real.sqrt (2 * Real.pi))
  exact h.congr (Filter.Eventually.of_forall fun x => (normPdf_eq x).symm)

/-- Total mass of the standard normal density is 1. -/
theorem integral_normPdf : ∫ x, normPdf x = 1 := by
  have hpi : 0 < 2 * Real.pi := by positivity
  have h1 : ∫ x, normPdf x =
      (∫ x : ℝ, Real.exp (-(2⁻¹ : ℝ) * x ^ 2)) / Real.sqrt (2 * Real.pi) := by
    rw [← integral_div]
    exact integral_congr_ae (Filter.Eventually.of_forall fun x => normPdf_eq x)
  rw [h1, integral_gaussian]
  rw [show Real.pi / (2⁻¹ : ℝ) = 2 * Real.pi by ring]
  exact div_self (ne_of_gt (Real.sqrt_pos.mpr hpi))

/-- The normal CDF is non-negative. -/
theorem normCdf_nonneg (x : ℝ) : 0 ≤ normCdf x :=
  setIntegral_nonneg measurableSet_Iic fun t _ => normPdf_nonneg t

/-- The normal CDF is at most 1. -/
theorem normCdf_le_one (x : ℝ) : normCdf x ≤ 1 := by
  rw [← integral_normPdf]
  exact setIntegral_le_integral integrable_normPdf
    (Filter.Eventually.of_forall normPdf_nonneg)

/-- The standard normal density is even. -/
theorem normPdf_neg (x : ℝ) : normPdf (-x) = normPdf x := by
  simp [normPdf]

/-- The upper tail of the normal distribution as a complement of the CDF. -/
theorem normCdf_neg_eq_tail (x : ℝ) :
    normCdf (-x) = ∫ t in Ioi x, normPdf t := by
  unfold normCdf
  have h1 : (∫ t in Iic (-x), normPdf t) = ∫ t in Iic (-x), normPdf (-t) :=
    integral_congr_ae (Filter.Eventually.of_forall fun t => by
      simp [normPdf_neg])
  rw [h1, integral_comp_neg_Iic, neg_neg]

/-- Symmetry: `normCdf x + normCdf (-x) = 1`. -/
theorem normCdf_add_normCdf_neg (x : ℝ) : normCdf x + normCdf (-x) = 1 := by
  rw [normCdf_neg_eq_tail, normCdf, ← integral_normPdf]
  exact intervalIntegral.integral_Iic_add_Ioi integrable_normPdf.integrableOn
    integrable_normPdf.integrableOn

/-- C8: put-call parity.  For positive spot, strike, volatility and time,
both Black-Scholes prices are computed without error and
`call − put = S − K·exp(−rT)` within `1e-6` absolute (here exactly). -/
theorem bs_put_call_parity (S K r sigma T : ℝ) (hS : 0 < S) (hK : 0 < K)
    (hsigma : 0 < sigma) (hT : 0 < T) :
    ∃ cp pp, bs_price S K r sigma T "call" = .ok cp ∧
      bs_price S K r sigma T "put" = .ok pp ∧
      |cp - pp - (S - K * Real.exp (-r * T))| ≤ 1e-6 := by
  have hst : sigma * Real.sqrt T ≠ 0 :=
    ne_of_gt (mul_pos hsigma (Real.sqrt_pos.mpr hT))
  set d1v := (Real.log (S / K) + (r + 0.5 * sigma ^ 2) * T) /
    (sigma * Real.sqrt T) with hd1v
  have hd1 : bs_d1 S K r sigma T = .ok d1v := by
    unfold bs_d1
    rw [if_neg (ne_of_gt hK), if_neg (not_le.mpr (div_pos hS hK)),
      if_neg (not_lt.mpr hT.le), if_neg hst]
  have hcall : bs_price S K r sigma T "call" =
      .ok (S * normCdf d1v - K * Real.exp (-r * T) *
        normCdf (d1v - sigma * Real.sqrt T)) := by
    simp [bs_price, hd1, show pyLower "call" = "call" from by decide]
  have hput : bs_price S K r sigma T "put" =
      .ok (K * Real.exp (-r * T) * normCdf (-(d1v - sigma * Real.sqrt T)) -
        S * normCdf (-d1v)) := by
    simp [bs_price, hd1, show ¬ pyLower "put" = "call" from by decide]
  refine ⟨_, _, hcall, hput, ?_⟩
  have h1 := normCdf_add_normCdf_neg d1v
  have h2 := normCdf_add_normCdf_neg (d1v - sigma * Real.sqrt T)
  have hzero : S * normCdf d1v - K * Real.exp (-r * T) *
      normCdf (d1v - sigma * Real.sqrt T) -
      (K * Real.exp (-r * T) * normCdf (-(d1v - sigma * Real.sqrt T)) -
        S * normCdf (-d1v)) - (S - K * Real.exp (-r * T)) = 0 := by
    linear_combination S * h1 - K * Real.exp (-r * T) * h2
  rw [hzero]
  norm_num

/-- Witness for C8 at a concrete input. -/
theorem bs_put_call_parity_witness :
    ∃ cp pp, bs_price 100 90 0 1 1 "call" = .ok cp ∧
      bs_price 100 90 0 1 1 "put" = .ok pp ∧
      |cp - pp - (100 - 90 * Real.exp (-0 * 1))| ≤ 1e-6 :=
  bs_put_call_parity 100 90 0 1 1 (by norm_num) (by norm_num) (by norm_num)
    (by norm_num)

/-- Improper integral of the Gaussian kernel times `t` over an upper tail. -/
theorem integral_Ioi_mul_gauss (a : ℝ) (ha : 0 ≤ a) :
    ∫ t in Ioi a, t * Real.exp (-(t ^ 2) / 2) = Real.exp (-(a ^ 2) / 2) := by
  have hderiv : ∀ t : ℝ, HasDerivAt (fun y : ℝ => -Real.exp (-(y ^ 2) / 2))
      (t * Real.exp (-(t ^ 2) / 2)) t := by
    intro t
    have h1 : HasDerivAt (fun y : ℝ => -(y ^ 2) / 2) (-t) t := by
      have h0 := ((hasDerivAt_pow 2 t).neg).div_const 2
      convert h0 using 1
      simp
      ring
    have h2 := (h1.exp).neg
    convert h2 using 1
    ring
  have htends : Filter.Tendsto (fun y : ℝ => -Real.exp (-(y ^ 2) / 2))
      Filter.atTop (nhds 0) := by
    have ht1 : Filter.Tendsto (fun y : ℝ => -(y ^ 2) / 2)
        Filter.atTop Filter.atBot := by
      apply Filter.Tendsto.atBot_div_const (by norm_num : (0 : ℝ) < 2)
      exact (Filter.tendsto_neg_atTop_atBot).comp
        (Filter.tendsto_pow_atTop (two_ne_zero))
    have ht2 := Real.tendsto_exp_atBot.comp ht1
    simpa using ht2.neg
  have hres := integral_Ioi_of_hasDerivAt_of_nonneg
    ((hderiv a).continuousAt.continuousWithinAt)
    (fun t _ => hderiv t)
    (fun t ht => mul_nonneg (le_of_lt (lt_of_le_of_lt ha ht))
      (Real.exp_nonneg _))
    htends
  rw [hres]
  ring

/-- The derivative-weighted Gaussian tail integrand is integrable. -/
theorem integrableOn_Ioi_mul_normPdf (a : ℝ) :
    IntegrableOn (fun t => t * normPdf t) (Ioi a) := by
  have h := ((integrable_mul_exp_neg_mul_sq
    (by norm_num : (0 : ℝ) < 2⁻¹)).div_const (Real.sqrt (2 * Real.pi)))
  have heq : (fun t : ℝ => t * Real.exp (-2⁻¹ * t ^ 2) /
      Real.sqrt (2 * Real.pi)) = fun t => t * normPdf t := by
    funext t
    unfold normPdf
    ring_nf
  exact (heq ▸ h).integrableOn

/-- Mills-type bound: for `x ≥ 1` the normal upper tail is at most the
Gaussian kernel at `x`, so `normCdf x ≥ 1 - exp (-(x^2)/2)`. -/
theorem one_sub_normCdf_le (x : ℝ) (hx : 1 ≤ x) :
    1 - normCdf x ≤ Real.exp (-(x ^ 2) / 2) := by
  have htail : 1 - normCdf x = ∫ t in Ioi x, normPdf t := by
    have h1 := normCdf_add_normCdf_neg x
    have h2 := normCdf_neg_eq_tail x
    linarith
  have hmono : (∫ t in Ioi x, normPdf t) ≤ ∫ t in Ioi x, t * normPdf t := by
    refine setIntegral_mono_on integrable_normPdf.integrableOn
      (integrableOn_Ioi_mul_normPdf x) measurableSet_Ioi ?_
    intro t ht
    exact le_mul_of_one_le_left (normPdf_nonneg t)
      (le_of_lt (lt_of_le_of_lt hx ht))
  have heval : (∫ t in Ioi x, t * normPdf t) =
      Real.exp (-(x ^ 2) / 2) / Real.sqrt (2 * Real.pi) := by
    have heq : (fun t : ℝ => t * normPdf t) =
        fun t => (t * Real.exp (-(t ^ 2) / 2)) / Real.sqrt (2 * Real.pi) := by
      funext t
      unfold normPdf
      ring
    rw [heq, integral_div, integral_Ioi_mul_gauss x (le_trans zero_le_one hx)]
  have hsqrt1 : 1 ≤ Real.sqrt (2 * Real.pi) := by
    rw [show (1 : ℝ) = Real.sqrt 1 from (Real.sqrt_one).symm]
    exact Real.sqrt_le_sqrt (by nlinarith [Real.pi_gt_three])
  have hfinal : Real.exp (-(x ^ 2) / 2) / Real.sqrt (2 * Real.pi) ≤
      Real.exp (-(x ^ 2) / 2) :=
    div_le_self (Real.exp_nonneg _) hsqrt1
  linarith

/-- Closed form of the call price on the non-raising domain. -/
theorem bs_price_call_formula (S K r sigma T : ℝ) (hS : 0 < S) (hK : 0 < K)
    (hT : 0 ≤ T) (hst : sigma * Real.sqrt T ≠ 0) :
    bs_price S K r sigma T "call" =
      .ok (S * normCdf (bsD1val S K r sigma T) -
        K * Real.exp (-r * T) *
          normCdf (bsD1val S K r sigma T - sigma * Real.sqrt T)) := by
  have hd1 : bs_d1 S K r sigma T = .ok (bsD1val S K r sigma T) := by
    unfold bs_d1 bsD1val
    rw [if_neg (ne_of_gt hK), if_neg (not_le.mpr (div_pos hS hK)),
      if_neg (not_lt.mpr hT), if_neg hst]
  simp [bs_price, hd1, show pyLower "call" = "call" from by decide]

/-- The tiny strike used in the round-trip counterexample is below `1e-6`. -/
theorem c7_K_small : ((2 : ℝ)⁻¹ ^ 400) ≤ 1e-6 := by
  have h1 : ((2 : ℝ)⁻¹ ^ 400) ≤ (2 : ℝ)⁻¹ ^ 20 :=
    pow_le_pow_of_le_one (by norm_num) (by norm_num) (by norm_num)
  have h2 : ((2 : ℝ)⁻¹ ^ 20) ≤ 1e-6 := by norm_num
  linarith

/-- With the tiny strike `2⁻⁴⁰⁰`, unit spot, zero rate and one year to
expiry, the Black-Scholes call price is within `1e-5` of 1 for every
volatility in (a slight enlargement of) the search interval: the price
function is essentially flat in sigma. -/
theorem c7_price_bounds (σ : ℝ) (hσl : (0.01 : ℝ) ≤ σ) (hσh : σ ≤ 5) :
    ∃ p, bs_price 1 ((2 : ℝ)⁻¹ ^ 400) 0 σ 1 "call" = .ok p ∧
      1 - 1e-5 ≤ p ∧ p ≤ 1 := by
  have hσ0 : 0 < σ := lt_of_lt_of_le (by norm_num) hσl
  have hKpos : 0 < ((2 : ℝ)⁻¹ ^ 400) := by positivity
  have hKsmall := c7_K_small
  have hlog : Real.log (1 / ((2 : ℝ)⁻¹ ^ 400)) = 400 * Real.log 2 := by
    have h1 : (1 : ℝ) / ((2 : ℝ)⁻¹ ^ 400) = 2 ^ 400 := by
      rw [one_div, ← inv_pow, inv_inv]
    rw [h1, Real.log_pow]
    norm_num
  have hlogge : (277 : ℝ) ≤ Real.log (1 / ((2 : ℝ)⁻¹ ^ 400)) := by
    rw [hlog]
    nlinarith [Real.log_two_gt_d9]
  have hst : σ * Real.sqrt 1 ≠ 0 := by
    rw [Real.sqrt_one, mul_one]
    exact ne_of_gt hσ0
  have hdv6 : 6 ≤ bsD1val 1 ((2 : ℝ)⁻¹ ^ 400) 0 σ 1 := by
    unfold bsD1val
    rw [Real.sqrt_one, le_div_iff₀ (by simpa using hσ0)]
    nlinarith [hlogge, sq_nonneg σ]
  have hdv1 : 1 ≤ bsD1val 1 ((2 : ℝ)⁻¹ ^ 400) 0 σ 1 := by linarith
  have hexp : Real.exp (-(bsD1val 1 ((2 : ℝ)⁻¹ ^ 400) 0 σ 1 ^ 2) / 2) ≤
      4e-6 := by
    have h18 : Real.exp (-(bsD1val 1 ((2 : ℝ)⁻¹ ^ 400) 0 σ 1 ^ 2) / 2) ≤
        Real.exp (-18) := by
      apply Real.exp_le_exp.mpr
      nlinarith [hdv6]
    have hgr : (2 : ℝ) ^ 18 ≤ Real.exp 18 := by
      have he1 : (2 : ℝ) ≤ Real.exp 1 := by
        nlinarith [Real.exp_one_gt_d9]
      calc (2 : ℝ) ^ 18 ≤ Real.exp 1 ^ 18 :=
            pow_le_pow_left (by norm_num) he1 18
      _ = Real.exp 18 := by
            rw [← Real.exp_nat_mul]
            norm_num
    have hle : Real.exp (-18 : ℝ) ≤ ((2 : ℝ) ^ 18)⁻¹ := by
      rw [Real.exp_neg]
      exact inv_le_inv_of_le (by positivity) hgr
    have : ((2 : ℝ) ^ 18)⁻¹ ≤ 4e-6 := by norm_num
    linarith
  have hΦlow : 1 - 4e-6 ≤ normCdf (bsD1val 1 ((2 : ℝ)⁻¹ ^ 400) 0 σ 1) := by
    have := one_sub_normCdf_le (bsD1val 1 ((2 : ℝ)⁻¹ ^ 400) 0 σ 1) hdv1
    linarith
  refine ⟨_, bs_price_call_formula 1 ((2 : ℝ)⁻¹ ^ 400) 0 σ 1 one_pos hKpos
    (by norm_num) hst, ?_, ?_⟩
  · have h1 := normCdf_le_one (bsD1val 1 ((2 : ℝ)⁻¹ ^ 400) 0 σ 1 -
      σ * Real.sqrt 1)
    have h2 : Real.exp (-(0 : ℝ) * 1) = 1 := by norm_num
    rw [h2]
    nlinarith [hKsmall, hKpos]
  · have h1 := normCdf_nonneg (bsD1val 1 ((2 : ℝ)⁻¹ ^ 400) 0 σ 1 -
      σ * Real.sqrt 1)
    have h2 := normCdf_le_one (bsD1val 1 ((2 : ℝ)⁻¹ ^ 400) 0 σ 1)
    have h3 : Real.exp (-(0 : ℝ) * 1) = 1 := by norm_num
    rw [h3]
    nlinarith [hKpos]

/-- One unfolding step of the bisection loop. -/
theorem ivBisectGo_succ_eq (m S K r T : ℝ) (ot : String) (n : ℕ)
    (low high : ℝ) :
    ivBisectGo m S K r T ot (n + 1) low high =
      match bs_price S K r ((low + high) / 2) T ot with
      | .error e => .error e
      | .ok priceMid =>
          if |priceMid - m| < IV_BISECT_TOLERANCE then
            .ok (some ((low + high) / 2))
          else if priceMid - m < 0 then
            ivBisectGo m S K r T ot n ((low + high) / 2) high
          else
            ivBisectGo m S K r T ot n low ((low + high) / 2) := rfl

/-- Running the round trip at the tiny strike: price at `sigma = 0.01`,
then bisect; the flat price profile makes the very first midpoint `2.505`
already pass the price tolerance. -/
theorem c7_bisect_run :
    ∃ m : ℝ, bs_price 1 ((2 : ℝ)⁻¹ ^ 400) 0 IV_BISECT_LOW 1 "call" = .ok m ∧
      ivBisect m 1 ((2 : ℝ)⁻¹ ^ 400) 0 1 "call" =
        .ok (some ((IV_BISECT_LOW + IV_BISECT_HIGH) / 2)) := by
  obtain ⟨m, hm, hm1, hm2⟩ := c7_price_bounds IV_BISECT_LOW
    (by norm_num [IV_BISECT_LOW]) (by norm_num [IV_BISECT_LOW])
  obtain ⟨ph, hph, hph1, hph2⟩ := c7_price_bounds IV_BISECT_HIGH
    (by norm_num [IV_BISECT_HIGH]) (by norm_num [IV_BISECT_HIGH])
  obtain ⟨pm, hpm, hpm1, hpm2⟩ := c7_price_bounds
    ((IV_BISECT_LOW + IV_BISECT_HIGH) / 2)
    (by norm_num [IV_BISECT_LOW, IV_BISECT_HIGH])
    (by norm_num [IV_BISECT_LOW, IV_BISECT_HIGH])
  refine ⟨m, hm, ?_⟩
  have hKsmall := c7_K_small
  have hKpos : 0 < ((2 : ℝ)⁻¹ ^ 400) := by positivity
  have htol : IV_BISECT_TOLERANCE = 1e-4 := rfl
  have hmpos : ¬ m ≤ 0 := not_le.mpr (by linarith)
  have hintr : intrinsicValue 1 ((2 : ℝ)⁻¹ ^ 400) 0 1 "call" =
      1 - (2 : ℝ)⁻¹ ^ 400 := by
    have h2 : (0 : ℝ) ≤ 1 - (2 : ℝ)⁻¹ ^ 400 := by linarith
    have hlowc : pyLower "call" = "call" := by decide
    unfold intrinsicValue
    rw [if_pos hlowc, show (-(0 : ℝ) * 1) = 0 by ring, Real.exp_zero, mul_one]
    exact max_eq_left h2
  have hcond2 : ¬ m < intrinsicValue 1 ((2 : ℝ)⁻¹ ^ 400) 0 1 "call" -
      IV_BISECT_TOLERANCE := by
    rw [hintr, htol]
    exact not_lt.mpr (by linarith)
  have hc3 : ¬ m < m - IV_BISECT_TOLERANCE := by
    rw [htol]
    exact not_lt.mpr (by linarith)
  have hc4 : ¬ ph + IV_BISECT_TOLERANCE < m := by
    rw [htol]
    exact not_lt.mpr (by linarith)
  have hc5 : |pm - m| < IV_BISECT_TOLERANCE := by
    rw [htol, abs_lt]
    constructor <;> linarith
  unfold ivBisect
  rw [if_neg hmpos, if_neg hcond2]
  simp only [hm, hph]
  rw [if_neg hc3, if_neg hc4]
  rw [show IV_BISECT_MAX_ITER = 99 + 1 from rfl, ivBisectGo_succ_eq]
  simp only [hpm]
  rw [if_pos hc5]

/-- C7 counterexample: with spot 1, strike `2⁻⁴⁰⁰`, rate 0, one year to
expiry and true volatility `0.01` (inside the search interval), pricing and
then recovering volatility returns `2.505`, which is more than `1e-3` away
from the true volatility. -/
theorem vol_roundtrip_not_close :
    ∃ m : ℝ, bs_price 1 ((2 : ℝ)⁻¹ ^ 400) 0 IV_BISECT_LOW 1 "call" = .ok m ∧
      ivBisect m 1 ((2 : ℝ)⁻¹ ^ 400) 0 1 "call" =
        .ok (some ((IV_BISECT_LOW + IV_BISECT_HIGH) / 2)) ∧
      1e-3 < |(IV_BISECT_LOW + IV_BISECT_HIGH) / 2 - IV_BISECT_LOW| := by
  obtain ⟨m, hm, hrun⟩ := c7_bisect_run
  refine ⟨m, hm, hrun, ?_⟩
  rw [abs_of_nonneg (by norm_num [IV_BISECT_LOW, IV_BISECT_HIGH])]
  norm_num [IV_BISECT_LOW, IV_BISECT_HIGH]

/-- C7 (amended): the round trip is tight in price space, not volatility
space.  Pricing at a true volatility and recovering a volatility via the
bisection solver yields, whenever the solver returns a result, a volatility
in `[0.01, 5.0]` whose Black-Scholes price is within `1e-4` of the original
price; the recovered volatility itself need not be within `1e-3` of the
true one (see the counterexample). -/
theorem vol_roundtrip_reprices_within_tolerance (S K r T σt σr m : ℝ)
    (ot : String) (hm : bs_price S K r σt T ot = .ok m)
    (hres : ivBisect m S K r T ot = .ok (some σr)) :
    (IV_BISECT_LOW ≤ σr ∧ σr ≤ IV_BISECT_HIGH) ∧
      ∀ p, bs_price S K r σr T ot = .ok p →
        |p - m| < IV_BISECT_TOLERANCE :=
  ivBisect_some_inv m S K r T ot σr hres

/-- Witness for C7 (amended) on the concrete counterexample run. -/
theorem vol_roundtrip_reprices_within_tolerance_witness :
    ∃ m σr : ℝ,
      bs_price 1 ((2 : ℝ)⁻¹ ^ 400) 0 IV_BISECT_LOW 1 "call" = .ok m ∧
      ivBisect m 1 ((2 : ℝ)⁻¹ ^ 400) 0 1 "call" = .ok (some σr) ∧
      (IV_BISECT_LOW ≤ σr ∧ σr ≤ IV_BISECT_HIGH) ∧
      ∀ p, bs_price 1 ((2 : ℝ)⁻¹ ^ 400) 0 σr 1 "call" = .ok p →
        |p - m| < IV_BISECT_TOLERANCE := by
  obtain ⟨m, hm, hrun⟩ := c7_bisect_run
  exact ⟨m, (IV_BISECT_LOW + IV_BISECT_HIGH) / 2, hm, hrun,
    vol_roundtrip_reprices_within_tolerance 1 ((2 : ℝ)⁻¹ ^ 400) 0 1
      IV_BISECT_LOW ((IV_BISECT_LOW + IV_BISECT_HIGH) / 2) m "call" hm hrun⟩

end GexEngine
